import Mathlib

/-!
Verification of the navigation/tab-synchronization core of
`src/ui/web/src/components/Layout.tsx`.

The embedding is shallow: each TypeScript function is translated into an
executable Lean definition.  JavaScript strings are Lean `String`s; the
string primitives used by the source (`startsWith`, `endsWith`, `includes`,
`split('/')`, `join('/')`) are re-implemented over `List Char` so that every
definition evaluates by kernel reduction.  Ambient browser state read by the
source (`location.state`, `document.referrer`, `sessionStorage`) is passed
explicitly as arguments.
-/

namespace Layout

/-- Model of JavaScript `s.startsWith(p)`. -/
def strStartsWith (s p : String) : Bool :=
  p.toList.isPrefixOf s.toList

/-- Model of JavaScript `s.endsWith(p)`. -/
def strEndsWith (s p : String) : Bool :=
  p.toList.isSuffixOf s.toList

/-- Helper for substring search over character lists. -/
def listInfixOf (pat : List Char) : List Char → Bool
  | [] => pat.isEmpty
  | c :: rest => pat.isPrefixOf (c :: rest) || listInfixOf pat rest

/-- Model of JavaScript `s.includes(p)`. -/
def strContains (s p : String) : Bool :=
  listInfixOf p.toList s.toList

/-- Splits a character list at `'/'` (model of `s.split('/')`). -/
def splitSlashAux (acc : List Char) : List Char → List String
  | [] => [String.mk acc.reverse]
  | c :: rest =>
      if c = '/' then String.mk acc.reverse :: splitSlashAux [] rest
      else splitSlashAux (c :: acc) rest

/-- Model of `currentPath.split('/').filter(Boolean)` from `isPathActive`. -/
def pathParts (s : String) : List String :=
  (splitSlashAux [] s.toList).filter (fun x => x ≠ "")

/-- Model of JavaScript `parts.join('/')`. -/
def joinSlash : List String → String
  | [] => ""
  | [s] => s
  | s :: rest => s ++ "/" ++ joinSlash rest

/-- Ambient browser state read by `isPathActive` in the `/ticket/` branch:
`location.state?.from`, `document.referrer`, and
`sessionStorage.getItem('ticket_detail_from')`. -/
structure ActiveEnv where
  fromState : Option String
  referrer : String
  storedFrom : Option String
deriving DecidableEq

/-- The environment in which no hint is present: no navigation state,
empty referrer, no stored hint. -/
def emptyEnv : ActiveEnv := ⟨none, "", none⟩

/-- Ticket-detail branch of `isPathActive` (Layout.tsx lines 253-284):
resolves which menu is active for `/ticket/:id` from the ambient hints, in
priority order state hint, referrer, stored hint, default `/my-tickets`.
Nested `if (referrer) { if (...) return ... }` blocks that fall through are
flattened into conjunctions. -/
def ticketActive (menuPath : String) (env : ActiveEnv) : Bool :=
  let fromPath := env.fromState.getD ""
  if fromPath != "" then menuPath == fromPath
  else if env.referrer != "" &&
      (strContains env.referrer "/daily-workorders" ||
       strContains env.referrer "/fill-ticket-form") then
    menuPath == "/daily-workorders"
  else if env.referrer != "" && strContains env.referrer "/my-tickets" then
    menuPath == "/my-tickets"
  else if env.referrer != "" && strContains env.referrer "/all-tickets" then
    menuPath == "/all-tickets"
  else if env.storedFrom.getD "" != "" then menuPath == env.storedFrom.getD ""
  else menuPath == "/my-tickets"

/-- Model of `isPathActive(menuPath, currentPath)` (Layout.tsx lines
202-287).  Each source block `if (outer) { if (inner) return true }` that
falls through on the inner test is flattened into a single conjunction. -/
def isPathActive (menuPath currentPath : String) (env : ActiveEnv) : Bool :=
  if menuPath == currentPath then true
  else if menuPath == "/daily-workorders" &&
      strStartsWith currentPath "/fill-ticket-form" then true
  else if menuPath == "/services" && strStartsWith currentPath "/services/" &&
      currentPath != "/services" && (pathParts currentPath).length == 2 &&
      (pathParts currentPath).getD 0 "" == "services" then true
  else if menuPath == "/clusters" && strStartsWith currentPath "/clusters/" &&
      strEndsWith currentPath "/status" then true
  else if menuPath == "/cluster-permissions" &&
      strStartsWith currentPath "/clusters/" &&
      strEndsWith currentPath "/permissions" then true
  else if menuPath == "/k8s/deployments" &&
      strStartsWith currentPath "/k8s/deployments/" &&
      currentPath != "/k8s/deployments" &&
      decide (5 ≤ (pathParts currentPath).length) &&
      (pathParts currentPath).getD 0 "" == "k8s" &&
      (pathParts currentPath).getD 1 "" == "deployments" then true
  else if strStartsWith menuPath "/k8s/" &&
      strStartsWith currentPath (menuPath ++ "/") && currentPath != menuPath &&
      decide ((pathParts menuPath).length < (pathParts currentPath).length) &&
      joinSlash ((pathParts currentPath).take (pathParts menuPath).length) ==
        joinSlash (pathParts menuPath) then true
  else if strStartsWith currentPath "/ticket/" then ticketActive menuPath env
  else false

theorem strStartsWith_trans_append (c m : String) (p : List Char)
    (hp : p.isPrefixOf m.toList = true)
    (hc : strStartsWith c (m ++ "/") = true) :
    p.isPrefixOf c.toList = true := by
  rw [List.isPrefixOf_iff_prefix] at hp ⊢
  have hc' : (m ++ "/").toList <+: c.toList := by
    rw [← List.isPrefixOf_iff_prefix]
    exact hc
  have hm : m.toList <+: c.toList := by
    have : m.toList <+: (m ++ "/").toList := by
      refine ⟨"/".toList, ?_⟩
      show m.toList ++ "/".toList = (m ++ "/").toList
      simp [String.toList, String.data_append]
    exact this.trans hc'
  exact hp.trans hm

/-- The general K8s rule can never fire for `currentPath = "/ticket/55"`:
a `menuPath` beginning with `/k8s/` cannot be a slash-extended prefix of
that path. -/
theorem k8s_rule_dead_for_ticket (m : String)
    (h1 : strStartsWith m "/k8s/" = true)
    (h2 : strStartsWith ("/ticket/55" : String) (m ++ "/") = true) : False := by
  have := strStartsWith_trans_append "/ticket/55" m "/k8s/".toList h1 h2
  simp only [strStartsWith] at this
  exact absurd this (by decide)

/-- Optional per-menu metadata (`Menu.meta` from the permission API).
`icon` and `title` mirror `meta?.icon` / `meta?.title`; `closeTab` is the
truthiness of `meta?.closeTab` (absent means `false`).  `closable` is
modelled from the spec: the pin/closable configuration from which a Tab's
`closable` flag is derived (the concrete `Menu` type of
`src/ui/web/src/api/permission.ts` is not under `src/`). -/
structure MenuMeta where
  icon : Option String
  title : Option String
  closeTab : Bool
  closable : Option Bool

mutual
/-- A server-delivered menu node (`MenuType` in Layout.tsx).  `component`
is `none` when the node has no bound page component (a falsy
`menu.component`); children are a `MenuList` (a JS array of nodes). -/
inductive MenuType where
  | mk (id name path : String) (component : Option String) (hidden : Bool)
      (meta : Option MenuMeta) (children : MenuList)
/-- A JS array of menu nodes. -/
inductive MenuList where
  | nil
  | cons (m : MenuType) (ms : MenuList)
end

def MenuType.id : MenuType → String
  | .mk i _ _ _ _ _ _ => i

def MenuType.name : MenuType → String
  | .mk _ n _ _ _ _ _ => n

def MenuType.path : MenuType → String
  | .mk _ _ p _ _ _ _ => p

def MenuType.component : MenuType → Option String
  | .mk _ _ _ c _ _ _ => c

def MenuType.hidden : MenuType → Bool
  | .mk _ _ _ _ h _ _ => h

def MenuType.meta : MenuType → Option MenuMeta
  | .mk _ _ _ _ _ m _ => m

def MenuType.children : MenuType → MenuList
  | .mk _ _ _ _ _ _ ch => ch

/-- Truthiness of `menu.component` (JS: `undefined` and `""` are falsy). -/
def MenuType.hasComponent (m : MenuType) : Bool :=
  match m.component with
  | some c => c != ""
  | none => false

/-- `menu.meta?.icon` (the name handed to the icon resolver). -/
def MenuType.metaIcon (m : MenuType) : Option String :=
  m.meta.bind (·.icon)

/-- Truthiness of `menu.meta?.closeTab`. -/
def MenuType.closeTabFlag (m : MenuType) : Bool :=
  (m.meta.map (·.closeTab)).getD false

/-- Modelled from the spec: the `closable` flag a Tab derives from its
owning menu node (`TabsContext` is not under `src/`; per the spec a Tab's
`closable` is "derived from whether the owning menu's `closeOnLeave`/pin
semantics allow closing"; absent configuration means closable). -/
def MenuType.derivedClosable (m : MenuType) : Bool :=
  (m.meta.bind (·.closable)).getD true

def MenuList.toList : MenuList → List MenuType
  | .nil => []
  | .cons m ms => m :: ms.toList

def MenuList.isNil : MenuList → Bool
  | .nil => true
  | .cons _ _ => false

def MenuList.filterB (p : MenuType → Bool) : MenuList → MenuList
  | .nil => .nil
  | .cons m ms => if p m then .cons m (ms.filterB p) else ms.filterB p

mutual
/-- Model of `findMenuByPath(path, menuList)` (Layout.tsx lines 188-199):
depth-first search, including hidden nodes, returning the first node whose
`path` equals the query. -/
def findMenuByPath (path : String) : MenuList → Option MenuType
  | .nil => none
  | .cons m ms =>
      match findMenuInNode path m with
      | some r => some r
      | none => findMenuByPath path ms
/-- One node of the `findMenuByPath` search: the node itself, then its
children. -/
def findMenuInNode (path : String) : MenuType → Option MenuType
  | .mk i n p c h mt ch =>
      if p == path then some (.mk i n p c h mt ch)
      else findMenuByPath path ch
end

/-- The translation function `t(key, \x7bdefaultValue: ''\x7d)`: returns the
translated string for a key, or `""` when no translation exists. -/
abbrev Translator := String → String

/-- Model of `getMenuTitle(menu)` (Layout.tsx lines 400-418): try the
group-scope key, then the item-scope key, then fall back to `menu.name`. -/
def getMenuTitle (tr : Translator) (m : MenuType) : String :=
  let groupKey := "menu.groups." ++ m.name
  let groupTranslation := tr groupKey
  if groupTranslation != "" && groupTranslation != groupKey then groupTranslation
  else
    let menuKey := "menu." ++ m.name
    let menuTranslation := tr menuKey
    if menuTranslation != "" && menuTranslation != menuKey then menuTranslation
    else m.name

/-- A rendered navigation item (`MenuItem` in Layout.tsx).  The source
leaves `children` `undefined` when the menu node has no `children` array;
every consumer treats `undefined` and `[]` the same way, so both are
modelled as `[]`. -/
inductive MenuItem where
  | mk (id path title : String) (icon : Option String) (children : List MenuItem)

def MenuItem.id : MenuItem → String
  | .mk i _ _ _ _ => i

def MenuItem.path : MenuItem → String
  | .mk _ p _ _ _ => p

def MenuItem.title : MenuItem → String
  | .mk _ _ t _ _ => t

def MenuItem.children : MenuItem → List MenuItem
  | .mk _ _ _ _ cs => cs

/-- A rendered sidebar group (`MenuGroup` in Layout.tsx). -/
structure MenuGroup where
  id : String
  title : String
  icon : Option String
  items : List MenuItem

mutual
/-- Model of `convertMenuToMenuItem(menu)` (Layout.tsx lines 462-482). -/
def convertMenuToMenuItem (tr : Translator) : MenuType → MenuItem
  | .mk i n p c h mt ch =>
      .mk i p (getMenuTitle tr (.mk i n p c h mt ch))
        ((MenuType.mk i n p c h mt ch).metaIcon)
        (convertChildren tr ch)
/-- Recursive conversion of a node's children. -/
def convertChildren (tr : Translator) : MenuList → List MenuItem
  | .nil => []
  | .cons m ms => convertMenuToMenuItem tr m :: convertChildren tr ms
end

/-- The group built from one top-level menu node (the `map` body of
`convertMenusToGroups`, Layout.tsx lines 490-509): routable children
(filtered for hidden) become the items, and a childless node becomes its
own single item. -/
def groupOf (tr : Translator) (m : MenuType) : MenuGroup :=
  { id := m.id
    title := getMenuTitle tr m
    icon := m.metaIcon
    items :=
      if !m.children.isNil then
        convertChildren tr (m.children.filterB (fun c => !c.hidden))
      else [convertMenuToMenuItem tr m] }

/-- Model of `convertMenusToGroups(menus)` (Layout.tsx lines 487-511):
filter hidden top-level nodes, build a group per remaining node, drop
groups with no items. -/
def convertMenusToGroups (tr : Translator) (menus : MenuList) : List MenuGroup :=
  (((menus.toList.filter (fun m => !m.hidden)).map (groupOf tr)).filter
    (fun g => decide (0 < g.items.length)))

theorem MenuList.toList_filterB (p : MenuType → Bool) :
    (ms : MenuList) → (ms.filterB p).toList = ms.toList.filter p
  | .nil => rfl
  | .cons m ms => by
      by_cases h : p m = true <;>
        simp [MenuList.filterB, MenuList.toList, h, toList_filterB p ms]

/-- C6: the group-building projection never emits an empty group; hidden
top-level nodes contribute no group (the output equals the output on the
hidden-filtered input); a non-hidden childless top-level node yields a
singleton group containing itself; and a node with children gets exactly
its non-hidden children as items. -/
theorem c6_groups_shape (tr : Translator) (ms : MenuList) :
    (∀ g ∈ convertMenusToGroups tr ms, g.items ≠ []) ∧
    (convertMenusToGroups tr ms =
      convertMenusToGroups tr (ms.filterB (fun m => !m.hidden))) ∧
    (∀ m ∈ ms.toList, m.hidden = false → m.children = .nil →
      groupOf tr m ∈ convertMenusToGroups tr ms ∧
      (groupOf tr m).items = [convertMenuToMenuItem tr m]) ∧
    (∀ m : MenuType, m.children.isNil = false →
      (groupOf tr m).items =
        convertChildren tr (m.children.filterB (fun c => !c.hidden))) := by
  refine ⟨?_, ?_, ?_, ?_⟩
  · intro g hg
    have := (List.mem_filter.mp hg).2
    have hlen : 0 < g.items.length := by simpa using this
    exact List.ne_nil_of_length_pos hlen
  · unfold convertMenusToGroups
    rw [MenuList.toList_filterB, List.filter_filter]
    simp
  · intro m hm hhid hch
    constructor
    · unfold convertMenusToGroups
      refine List.mem_filter.mpr ⟨List.mem_map_of_mem _ ?_, ?_⟩
      · exact List.mem_filter.mpr ⟨hm, by simp [hhid]⟩
      · simp [groupOf, hch, MenuList.isNil]
    · simp [groupOf, hch, MenuList.isNil]
  · intro m hch
    simp [groupOf, hch]

/-- Witness for C6 at a concrete one-node menu list. -/
theorem c6_groups_shape_witness :
    groupOf (fun _ => "") (.mk "id1" "home" "/home" (some "Home") false none .nil) ∈
      convertMenusToGroups (fun _ => "")
        (.cons (.mk "id1" "home" "/home" (some "Home") false none .nil) .nil) ∧
    (groupOf (fun _ => "") (.mk "id1" "home" "/home" (some "Home") false none .nil)).items =
      [convertMenuToMenuItem (fun _ => "") (.mk "id1" "home" "/home" (some "Home") false none .nil)] :=
  (c6_groups_shape (fun _ => "")
      (.cons (.mk "id1" "home" "/home" (some "Home") false none .nil) .nil)).2.2.1
    (.mk "id1" "home" "/home" (some "Home") false none .nil)
    (List.mem_cons_self _ _) rfl rfl

/-- The inputs `fetchMenus` reads: its argument, the sessionStorage cache
(parsed menus and timestamp, `none` when absent), the clock, and the
outcome of the single `getUserMenus()` call (`none` models a rejected
request). -/
structure FetchInput where
  forceRefresh : Bool
  cachedMenus : Option MenuList
  cachedTimestamp : Option Nat
  now : Nat
  fetchResult : Option MenuList

/-- The observable outcome of one `fetchMenus` run: the menu state, the
group-expansion state, and whether the remote call was performed (the
source performs at most one `getUserMenus()` call per run, so a `Bool`
captures the exact count). -/
structure FetchOutput where
  menus : MenuList
  openGroups : List (String × Bool)
  remoteCalled : Bool

/-- The 10-minute cache expiry (`10 * 60 * 1000` ms, Layout.tsx line 90). -/
def cacheExpiry : Nat := 10 * 60 * 1000

/-- The `initialOpenState` built after each menu load: every top-level
menu id mapped to `false` (all groups collapsed). -/
def initialOpenState (menus : MenuList) : List (String × Bool) :=
  menus.toList.map (fun m => (m.id, false))

/-- The remote branch of `fetchMenus` (Layout.tsx lines 121-162): call
`getUserMenus()`; on success store and use the data; on failure fall back
to the cached snapshot regardless of age, or to an empty list.  The
failure is swallowed (the function is total); when no cache exists the
expansion state is left untouched. -/
def fetchRemote (inp : FetchInput) (og0 : List (String × Bool)) : FetchOutput :=
  match inp.fetchResult with
  | some data => ⟨data, initialOpenState data, true⟩
  | none =>
      match inp.cachedMenus with
      | some m => ⟨m, initialOpenState m, true⟩
      | none => ⟨.nil, og0, true⟩

/-- Model of `fetchMenus(forceRefresh)` (Layout.tsx lines 86-163): unless
`forceRefresh`, a cached snapshot with both entries present and age
strictly below `cacheExpiry` is used without any remote call; otherwise
the remote branch runs. -/
def fetchMenus (inp : FetchInput) (og0 : List (String × Bool)) : FetchOutput :=
  if !inp.forceRefresh then
    match inp.cachedMenus, inp.cachedTimestamp with
    | some m, some ts =>
        if inp.now - ts < cacheExpiry then ⟨m, initialOpenState m, false⟩
        else fetchRemote inp og0
    | _, _ => fetchRemote inp og0
  else fetchRemote inp og0

/-- C3: a load with a fresh cached snapshot (both cache entries present,
age strictly under 10 minutes) and `forceRefresh = false` returns the
snapshot and performs no remote call; a load whose cache age is at or
beyond 10 minutes, or with `forceRefresh = true`, performs the remote
fetch (which the source performs exactly once per run). -/
theorem c3_cache_freshness (inp : FetchInput) (og0 : List (String × Bool)) :
    (∀ m ts, inp.cachedMenus = some m → inp.cachedTimestamp = some ts →
      inp.now - ts < cacheExpiry → inp.forceRefresh = false →
      (fetchMenus inp og0).remoteCalled = false ∧ (fetchMenus inp og0).menus = m) ∧
    (∀ ts, inp.cachedTimestamp = some ts → cacheExpiry ≤ inp.now - ts →
      (fetchMenus inp og0).remoteCalled = true) ∧
    (inp.forceRefresh = true → (fetchMenus inp og0).remoteCalled = true) := by
  refine ⟨?_, ?_, ?_⟩
  · intro m ts hm hts hage hforce
    simp [fetchMenus, hm, hts, hage, hforce]
  · intro ts hts hage
    have hage' : ¬ inp.now - ts < cacheExpiry := not_lt.mpr hage
    cases hforce : inp.forceRefresh with
    | true => simp [fetchMenus, hforce, fetchRemote]
              cases h : inp.fetchResult <;> cases h2 : inp.cachedMenus <;> simp [h, h2]
    | false =>
        cases hm : inp.cachedMenus with
        | none => simp [fetchMenus, hforce, hm, fetchRemote]
                  cases h : inp.fetchResult <;> simp [h]
        | some m =>
            simp [fetchMenus, hforce, hm, hts, hage', fetchRemote]
            cases h : inp.fetchResult <;> simp [h]
  · intro hforce
    simp [fetchMenus, hforce, fetchRemote]
    cases h : inp.fetchResult <;> cases h2 : inp.cachedMenus <;> simp [h, h2]

/-- Witness for C3 at a concrete fresh-cache input. -/
theorem c3_cache_freshness_witness :
    (fetchMenus ⟨false, some .nil, some 0, 5, none⟩ []).remoteCalled = false ∧
    (fetchMenus ⟨false, some .nil, some 0, 5, none⟩ []).menus = .nil :=
  (c3_cache_freshness ⟨false, some .nil, some 0, 5, none⟩ []).1 .nil 0 rfl rfl
    (by decide) rfl

/-- C4: when the remote fetch runs and fails, any cached snapshot —
regardless of age — becomes the menu state, and with no cache the menu
state is empty; `fetchMenus` is a total function, so the failure is never
propagated to the caller. -/
theorem c4_failure_fallback (inp : FetchInput) (og0 : List (String × Bool))
    (hfail : inp.fetchResult = none)
    (hcalled : (fetchMenus inp og0).remoteCalled = true) :
    (∃ m, inp.cachedMenus = some m ∧ (fetchMenus inp og0).menus = m) ∨
    (inp.cachedMenus = none ∧ (fetchMenus inp og0).menus = .nil) := by
  unfold fetchMenus at *
  cases hforce : inp.forceRefresh with
  | true =>
      cases hm : inp.cachedMenus with
      | none => right; simp [hforce, hfail, hm, fetchRemote]
      | some m => left; exact ⟨m, rfl, by simp [hforce, hfail, hm, fetchRemote]⟩
  | false =>
      cases hm : inp.cachedMenus with
      | none => right; simp [hforce, hfail, hm, fetchRemote]
      | some m =>
          cases hts : inp.cachedTimestamp with
          | none => left; exact ⟨m, rfl, by simp [hforce, hfail, hm, hts, fetchRemote]⟩
          | some ts =>
              by_cases hage : inp.now - ts < cacheExpiry
              · exfalso
                simp [hforce, hm, hts, hage] at hcalled
              · left
                exact ⟨m, rfl, by simp [hforce, hfail, hm, hts, hage, fetchRemote]⟩

/-- Witness for C4 at a concrete failing forced refresh with a stale
cache present. -/
theorem c4_failure_fallback_witness :
    (∃ m, (⟨true, some .nil, none, 0, none⟩ : FetchInput).cachedMenus = some m ∧
      (fetchMenus ⟨true, some .nil, none, 0, none⟩ []).menus = m) ∨
    ((⟨true, some .nil, none, 0, none⟩ : FetchInput).cachedMenus = none ∧
      (fetchMenus ⟨true, some .nil, none, 0, none⟩ []).menus = .nil) :=
  c4_failure_fallback ⟨true, some .nil, none, 0, none⟩ [] rfl rfl

/-- C10: every load that yields a menu list — fresh cache hit, successful
remote fetch, or stale-cache fallback after a failure — replaces the whole
group-expansion state (whatever it was before) with the map sending every
top-level id of the resulting menus to `false`. -/
theorem c10_load_collapses_groups (inp : FetchInput) (og0 : List (String × Bool)) :
    (∀ m ts, inp.cachedMenus = some m → inp.cachedTimestamp = some ts →
      inp.now - ts < cacheExpiry → inp.forceRefresh = false →
      (fetchMenus inp og0).openGroups =
        (fetchMenus inp og0).menus.toList.map (fun mm => (mm.id, false))) ∧
    (∀ data, inp.fetchResult = some data →
      (fetchMenus inp og0).remoteCalled = true →
      (fetchMenus inp og0).openGroups =
        (fetchMenus inp og0).menus.toList.map (fun mm => (mm.id, false))) ∧
    (∀ m, inp.fetchResult = none → inp.cachedMenus = some m →
      (fetchMenus inp og0).remoteCalled = true →
      (fetchMenus inp og0).openGroups =
        (fetchMenus inp og0).menus.toList.map (fun mm => (mm.id, false))) := by
  refine ⟨?_, ?_, ?_⟩
  · intro m ts hm hts hage hforce
    simp [fetchMenus, hm, hts, hage, hforce, initialOpenState]
  · intro data hdata _
    unfold fetchMenus
    cases hforce : inp.forceRefresh with
    | true => simp [hdata, fetchRemote, initialOpenState]
    | false =>
        cases hm : inp.cachedMenus with
        | none => simp [hdata, hm, fetchRemote, initialOpenState]
        | some m =>
            cases hts : inp.cachedTimestamp with
            | none => simp [hdata, hm, hts, fetchRemote, initialOpenState]
            | some ts =>
                by_cases hage : inp.now - ts < cacheExpiry <;>
                  simp [hdata, hm, hts, hage, fetchRemote, initialOpenState]
  · intro m hfail hm _
    unfold fetchMenus
    cases hforce : inp.forceRefresh with
    | true => simp [hfail, hm, fetchRemote, initialOpenState]
    | false =>
        cases hts : inp.cachedTimestamp with
        | none => simp [hfail, hm, hts, fetchRemote, initialOpenState]
        | some ts =>
            by_cases hage : inp.now - ts < cacheExpiry <;>
              simp [hfail, hm, hts, hage, fetchRemote, initialOpenState]

/-- Witness for C10 at a concrete fresh-cache load with a previously
expanded group. -/
theorem c10_load_collapses_groups_witness :
    (fetchMenus ⟨false, some (.cons (.mk "g1" "assets" "" none false none .nil) .nil),
        some 0, 5, none⟩ [("g1", true)]).openGroups =
      (fetchMenus ⟨false, some (.cons (.mk "g1" "assets" "" none false none .nil) .nil),
        some 0, 5, none⟩ [("g1", true)]).menus.toList.map (fun mm => (mm.id, false)) :=
  (c10_load_collapses_groups _ _).1 _ 0 rfl rfl (by decide) rfl

/-- Reading a key of the `openGroups` JS object (first binding wins). -/
def objGet (og : List (String × Bool)) (k : String) : Option Bool :=
  List.lookup k og

/-- Writing `\x7b...prev, [key]: true\x7d`: the new binding shadows any
older one. -/
def objSetTrue (og : List (String × Bool)) (key : String) : List (String × Bool) :=
  (key, true) :: og

/-- One conditional expansion update of the route-change effect: when the
group is active, set its key to `true` unless it is already `true`
(Layout.tsx lines 677-689 and 709-722). -/
def expandStep (c : Bool) (key : String) (og : List (String × Bool)) :
    List (String × Bool) :=
  if c then (if objGet og key = some true then og else objSetTrue og key) else og

/-- The `hasActiveItem` predicate of the first expansion loop (Layout.tsx
lines 668-676): some item of the group, or some direct child of an item,
is active for the current route. -/
def hasActiveItemB (cp : String) (env : ActiveEnv) (g : MenuGroup) : Bool :=
  g.items.any (fun item =>
    isPathActive item.path cp env ||
    item.children.any (fun child => isPathActive child.path cp env))

/-- The `hasActiveGrandchild` predicate of the second expansion loop
(Layout.tsx lines 697-707). -/
def hasActiveGrandchildB (cp : String) (env : ActiveEnv) (item : MenuItem) : Bool :=
  item.children.any (fun child =>
    isPathActive child.path cp env ||
    child.children.any (fun gc => isPathActive gc.path cp env))

/-- Model of the route-change expansion effect (Layout.tsx lines 665-727):
first loop marks groups with an active item expanded, second loop marks
sub-group keys `"$\x7bgroup.id\x7d-$\x7bitem.id\x7d"` with an active
grandchild expanded. -/
def routeExpansionEffect (groups : List MenuGroup) (cp : String) (env : ActiveEnv)
    (og : List (String × Bool)) : List (String × Bool) :=
  let og1 := groups.foldl
    (fun acc g => expandStep (hasActiveItemB cp env g) g.id acc) og
  groups.foldl
    (fun acc g => g.items.foldl
      (fun acc2 it =>
        if !it.children.isEmpty then
          expandStep (hasActiveGrandchildB cp env it) (g.id ++ "-" ++ it.id) acc2
        else acc2) acc) og1

/-- Relation between expansion states: keys already `true` stay `true`,
and any changed key has been set to `true` (from a not-`true` value) and
belongs to `keys`. -/
def Expands (keys : String → Prop) (og og' : List (String × Bool)) : Prop :=
  (∀ k, objGet og k = some true → objGet og' k = some true) ∧
  (∀ k, objGet og' k ≠ objGet og k →
    objGet og' k = some true ∧ objGet og k ≠ some true ∧ keys k)

theorem Expands.rfl {keys : String → Prop} {og : List (String × Bool)} :
    Expands keys og og :=
  ⟨fun _ h => h, fun _ h => ((h (Eq.refl _)).elim)⟩

theorem Expands.mono {keys : String → Prop} (keys' : String → Prop)
    {og og' : List (String × Bool)}
    (h : Expands keys og og') (hk : ∀ k, keys k → keys' k) :
    Expands keys' og og' :=
  ⟨h.1, fun k hne => ⟨(h.2 k hne).1, (h.2 k hne).2.1, hk k (h.2 k hne).2.2⟩⟩

theorem Expands.trans {keys : String → Prop} {og og1 og2 : List (String × Bool)}
    (h1 : Expands keys og og1) (h2 : Expands keys og1 og2) :
    Expands keys og og2 := by
  refine ⟨fun k h => h2.1 k (h1.1 k h), fun k hne => ?_⟩
  by_cases hmid : objGet og1 k = objGet og k
  · have hne2 : objGet og2 k ≠ objGet og1 k := by rw [hmid]; exact hne
    obtain ⟨ha, hb, hc⟩ := h2.2 k hne2
    exact ⟨ha, by rw [← hmid]; exact hb, hc⟩
  · obtain ⟨ha, hb, hc⟩ := h1.2 k hmid
    exact ⟨h2.1 k ha, hb, hc⟩

theorem objGet_objSetTrue (og : List (String × Bool)) (key k : String) :
    objGet (objSetTrue og key) k =
      if k = key then some true else objGet og k := by
  by_cases h : k = key
  · have hb : (k == key) = true := by simpa using h
    simp [objGet, objSetTrue, List.lookup, hb, h]
  · have hb : (k == key) = false := beq_eq_false_iff_ne.mpr h
    simp [objGet, objSetTrue, List.lookup, hb, h]

theorem expandStep_expands (c : Bool) (key : String) (og : List (String × Bool)) :
    Expands (fun k => k = key ∧ c = true) og (expandStep c key og) := by
  unfold expandStep
  cases c with
  | false => simpa using Expands.rfl
  | true =>
      by_cases halready : objGet og key = some true
      · simpa [halready] using Expands.rfl
      · simp only [halready, ite_true, ite_false, if_true, if_false]
        refine ⟨?_, ?_⟩
        · intro k hk
          rw [objGet_objSetTrue]
          by_cases h : k = key
          · rw [if_pos h]
          · rw [if_neg h]; exact hk
        · intro k hne
          rw [objGet_objSetTrue] at hne ⊢
          by_cases h : k = key
          · subst h
            rw [if_pos (Eq.refl _)] at hne ⊢
            exact ⟨Eq.refl _, halready, Eq.refl _, trivial⟩
          · rw [if_neg h] at hne
            exact (hne (Eq.refl _)).elim

/-- The keys that the route-change expansion effect is allowed to touch:
ids of groups with an active item, and sub-group keys of items with an
active grandchild. -/
def expansionKeys (cp : String) (env : ActiveEnv) (groups : List MenuGroup)
    (k : String) : Prop :=
  (∃ g ∈ groups, k = g.id ∧ hasActiveItemB cp env g = true) ∨
  (∃ g ∈ groups, ∃ it ∈ g.items, k = g.id ++ "-" ++ it.id ∧
    hasActiveGrandchildB cp env it = true)

theorem expansion_fold1 (cp : String) (env : ActiveEnv) :
    ∀ (groups : List MenuGroup) (og : List (String × Bool)),
    Expands (expansionKeys cp env groups) og
      (groups.foldl (fun acc g => expandStep (hasActiveItemB cp env g) g.id acc) og)
  | [], _ => Expands.rfl
  | g :: gs, og => by
      rw [List.foldl_cons]
      have hstep := (expandStep_expands (hasActiveItemB cp env g) g.id og).mono
        (expansionKeys cp env (g :: gs))
        (fun k hk => Or.inl ⟨g, List.mem_cons_self g gs, hk.1, hk.2⟩)
      have hrest := (expansion_fold1 cp env gs
          (expandStep (hasActiveItemB cp env g) g.id og)).mono
        (expansionKeys cp env (g :: gs))
        (fun k hk => by
          rcases hk with ⟨g', hg', hk⟩ | ⟨g', hg', hit⟩
          · exact Or.inl ⟨g', List.mem_cons_of_mem g hg', hk⟩
          · exact Or.inr ⟨g', List.mem_cons_of_mem g hg', hit⟩)
      exact hstep.trans hrest

theorem expansion_fold2_inner (cp : String) (env : ActiveEnv) (gid : String) :
    ∀ (items : List MenuItem) (og : List (String × Bool)),
    Expands (fun k => ∃ it ∈ items, k = gid ++ "-" ++ it.id ∧
        hasActiveGrandchildB cp env it = true) og
      (items.foldl (fun acc2 it =>
        if !it.children.isEmpty then
          expandStep (hasActiveGrandchildB cp env it) (gid ++ "-" ++ it.id) acc2
        else acc2) og)
  | [], _ => Expands.rfl
  | it :: its, og => by
      rw [List.foldl_cons]
      set og1 := if !it.children.isEmpty then
          expandStep (hasActiveGrandchildB cp env it) (gid ++ "-" ++ it.id) og
        else og with hog1
      have hstep : Expands (fun k => ∃ i ∈ it :: its, k = gid ++ "-" ++ i.id ∧
          hasActiveGrandchildB cp env i = true) og og1 := by
        by_cases hch : (!it.children.isEmpty) = true
        · rw [hog1, if_pos hch]
          exact (expandStep_expands _ _ og).mono
            (fun k => ∃ i ∈ it :: its, k = gid ++ "-" ++ i.id ∧
              hasActiveGrandchildB cp env i = true)
            (fun k hk => ⟨it, List.mem_cons_self it its, hk.1, hk.2⟩)
        · rw [hog1, if_neg hch]
          exact Expands.rfl
      have hrest := (expansion_fold2_inner cp env gid its og1).mono
        (fun k => ∃ i ∈ it :: its, k = gid ++ "-" ++ i.id ∧
          hasActiveGrandchildB cp env i = true)
        (fun k hk => by
          obtain ⟨i, hi, hk⟩ := hk
          exact ⟨i, List.mem_cons_of_mem it hi, hk⟩)
      exact hstep.trans hrest

theorem expansion_fold2 (cp : String) (env : ActiveEnv) :
    ∀ (groups : List MenuGroup) (og : List (String × Bool)),
    Expands (fun k => ∃ g ∈ groups, ∃ it ∈ g.items, k = g.id ++ "-" ++ it.id ∧
        hasActiveGrandchildB cp env it = true) og
      (groups.foldl (fun acc g => g.items.foldl
        (fun acc2 it =>
          if !it.children.isEmpty then
            expandStep (hasActiveGrandchildB cp env it) (g.id ++ "-" ++ it.id) acc2
          else acc2) acc) og)
  | [], _ => Expands.rfl
  | g :: gs, og => by
      rw [List.foldl_cons]
      have hstep := (expansion_fold2_inner cp env g.id g.items og).mono
        (fun k => ∃ g' ∈ g :: gs, ∃ it ∈ g'.items,
          k = g'.id ++ "-" ++ it.id ∧ hasActiveGrandchildB cp env it = true)
        (fun k hk => by
          obtain ⟨i, hi, hk⟩ := hk
          exact ⟨g, List.mem_cons_self g gs, i, hi, hk⟩)
      have hrest := (expansion_fold2 cp env gs
          (g.items.foldl (fun acc2 it =>
            if !it.children.isEmpty then
              expandStep (hasActiveGrandchildB cp env it) (g.id ++ "-" ++ it.id) acc2
            else acc2) og)).mono
        (fun k => ∃ g' ∈ g :: gs, ∃ it ∈ g'.items,
          k = g'.id ++ "-" ++ it.id ∧ hasActiveGrandchildB cp env it = true)
        (fun k hk => by
          obtain ⟨g', hg', hk⟩ := hk
          exact ⟨g', List.mem_cons_of_mem g hg', hk⟩)
      exact hstep.trans hrest

/-- C9: the route-change expansion recomputation only ever expands: a key
already `true` stays `true` (no group or sub-group is ever collapsed), and
any key it changes is set to `true`, was not `true` before, and is the key
of a group with an active item or of a sub-group with an active
grandchild. -/
theorem c9_expansion_only_expands (groups : List MenuGroup) (cp : String)
    (env : ActiveEnv) (og : List (String × Bool)) :
    (∀ k, objGet og k = some true →
      objGet (routeExpansionEffect groups cp env og) k = some true) ∧
    (∀ k, objGet (routeExpansionEffect groups cp env og) k ≠ objGet og k →
      objGet (routeExpansionEffect groups cp env og) k = some true ∧
      objGet og k ≠ some true ∧
      ((∃ g ∈ groups, k = g.id ∧ hasActiveItemB cp env g = true) ∨
       (∃ g ∈ groups, ∃ it ∈ g.items, k = g.id ++ "-" ++ it.id ∧
         hasActiveGrandchildB cp env it = true))) := by
  have h1 := expansion_fold1 cp env groups og
  have h2 := (expansion_fold2 cp env groups
      (groups.foldl (fun acc g => expandStep (hasActiveItemB cp env g) g.id acc) og)).mono
    (expansionKeys cp env groups) (fun k hk => Or.inr hk)
  have := h1.trans h2
  exact ⟨this.1, fun k hne => (this.2 k hne)⟩

/-- Witness for C9: an already-expanded key survives the recomputation. -/
theorem c9_expansion_only_expands_witness :
    objGet (routeExpansionEffect [] "/x" emptyEnv [("a", true)]) "a" = some true :=
  (c9_expansion_only_expands [] "/x" emptyEnv [("a", true)]).1 "a" rfl

/-- A tab of the path-keyed collection.  Per the spec a Tab's id is
determined by its path (`path`, or the sentinel `"home"` when the path is
empty), so the id is kept as the derived function `tabId` rather than a
stored field. -/
structure Tab where
  path : String
  title : String
  closable : Bool
deriving DecidableEq

/-- The tab id derived from a path: `path || 'home'`. -/
def tabId (path : String) : String :=
  if path == "" then "home" else path

/-- The state owned by the tab synchronizer: the ordered tab collection,
the PendingRemoval marker, and the `prevPathRef` of the navigation
effect. -/
structure TabsState where
  tabs : List Tab
  pending : Option String
  prevPath : String
deriving DecidableEq

/-- Modelled from the spec: the Tab built by `TabsContext.addTab(menu)`
(`src/ui/web/src/contexts/TabsContext.tsx` is not under `src/`): keyed by
the menu's path, titled from `meta.title` falling back to `name`, with the
closable flag derived from the menu. -/
def tabOfMenu (m : MenuType) : Tab :=
  ⟨m.path, (m.meta.bind (·.title)).getD m.name, m.derivedClosable⟩

/-- Modelled from the spec: `TabsContext.addTab(menu)`; when a tab with
the menu's id already exists it is updated in place (this is how the
Layout batch title correction works), otherwise the new tab is appended
in insertion order. -/
def addTab (m : MenuType) (s : TabsState) : TabsState :=
  if s.tabs.any (fun t => tabId t.path == tabId m.path) then
    { s with tabs := s.tabs.map (fun t =>
        if tabId t.path == tabId m.path then tabOfMenu m else t) }
  else { s with tabs := s.tabs ++ [tabOfMenu m] }

/-- Modelled from the spec: `TabsContext.removeTab(id)` — the normal
user-initiated close: find the tab with that id, refuse when it is not
closable, otherwise remove it and transiently record the id as the
PendingRemoval marker. -/
def removeTab (id : String) (s : TabsState) : TabsState :=
  match s.tabs.find? (fun t => tabId t.path == id) with
  | none => s
  | some t =>
      if t.closable then
        { s with tabs := s.tabs.eraseP (fun t' => tabId t'.path == id),
                 pending := some id }
      else s

/-- Modelled from the spec: `TabsContext.forceRemoveTab(path)` — removes
the tab bound to that path regardless of its closable flag. -/
def forceRemoveTab (path : String) (s : TabsState) : TabsState :=
  { s with tabs := s.tabs.filter (fun t => !(t.path == path)) }

/-- Modelled from the spec: `TabsContext.cleanInvalidTabs(menus)` — prunes
every tab whose path no longer resolves via `findMenuByPath` against the
fresh tree. -/
def cleanInvalidTabs (menus : MenuList) (s : TabsState) : TabsState :=
  { s with tabs := s.tabs.filter (fun t => (findMenuByPath t.path menus).isSome) }

/-- Modelled from the spec: `TabsContext.updateTabsClosable(menus)` —
recomputes each resolvable tab's closable flag from its menu node. -/
def updateTabsClosable (menus : MenuList) (s : TabsState) : TabsState :=
  { s with tabs := s.tabs.map (fun t =>
      match findMenuByPath t.path menus with
      | some m => { t with closable := m.derivedClosable }
      | none => t) }

/-- The menu object `\x7b...menu, meta: \x7b...menu.meta, title:
correctTitle\x7d\x7d` built by the title-correction loops. -/
def metaWithTitle (mt : Option MenuMeta) (title : String) : MenuMeta :=
  { icon := mt.bind (·.icon)
    title := some title
    closeTab := (mt.map (·.closeTab)).getD false
    closable := mt.bind (·.closable) }

def menuWithTitle (m : MenuType) (title : String) : MenuType :=
  match m with
  | .mk i n p c h mt ch => .mk i n p c h (some (metaWithTitle mt title)) ch

/-- One step of the dedup/title scan of the menu-load effect (Layout.tsx
lines 319-361).  The accumulator carries the live state being mutated, the
`pathToTabMap` (keyed by path, newest binding first), and the
`tabsToUpdate` list; the scanned `tab` comes from the render-time snapshot
of the collection. -/
def scanStep (tr : Translator) (menus : MenuList)
    (acc : TabsState × List (String × Tab) × List (MenuType × String))
    (tab : Tab) : TabsState × List (String × Tab) × List (MenuType × String) :=
  let st := acc.1
  let seen := acc.2.1
  let upd := acc.2.2
  if tab.path == "/dashboard" then acc
  else
    match findMenuByPath tab.path menus with
    | none => acc
    | some menu =>
        let correctTitle := getMenuTitle tr menu
        match List.lookup tab.path seen with
        | some existing =>
            if existing.title == correctTitle && tab.title != correctTitle then
              (removeTab (tabId tab.path) st, seen, upd)
            else if tab.title == correctTitle && existing.title != correctTitle then
              (removeTab (tabId existing.path) st, (tab.path, tab) :: seen, upd)
            else
              (removeTab (tabId tab.path) st, seen, upd)
        | none =>
            if tab.title != correctTitle then
              (st, (tab.path, tab) :: seen, upd ++ [(menu, correctTitle)])
            else (st, (tab.path, tab) :: seen, upd)

/-- The scan-then-batch tail of the menu-load effect: run the dedup/title
scan over the snapshot starting from the live state `s3`, then apply the
collected title corrections through `addTab`. -/
def menuLoadScanApply (tr : Translator) (menus : MenuList) (s3 : TabsState)
    (snapshot : List Tab) : TabsState :=
  ((snapshot.foldl (scanStep tr menus) (s3, [], [])).2.2).foldl
    (fun acc p => addTab (menuWithTitle p.1 p.2) acc)
    ((snapshot.foldl (scanStep tr menus) (s3, [], [])).1)

/-- Model of the menu-load reconciliation effect (Layout.tsx lines
290-395): force-evict `/dashboard` tabs, prune unresolvable tabs, then —
when the snapshot is non-empty — recompute closable flags, run the
dedup/title scan over the snapshot, and apply the batched title
corrections through `addTab`.  The decisions read the render-time snapshot
`s.tabs` while the mutations thread the live state, mirroring how the
React effect dispatches functional updates. -/
def menuLoadRecon (tr : Translator) (menus : MenuList) (s : TabsState) : TabsState :=
  if menus.isNil then s
  else if s.tabs.isEmpty then cleanInvalidTabs menus (forceRemoveTab "/dashboard" s)
  else
    menuLoadScanApply tr menus
      (updateTabsClosable menus (cleanInvalidTabs menus (forceRemoveTab "/dashboard" s)))
      s.tabs

def staticAssetExts : List String :=
  ["js", "css", "png", "jpg", "jpeg", "gif", "ico", "svg", "woff", "woff2",
   "ttf", "eot", "map"]

/-- JS `s.toLowerCase()` restricted to the ASCII range exercised by the
static-asset extension test. -/
def lowerStr (s : String) : String :=
  String.mk (s.toList.map Char.toLower)

/-- The static-asset test of the navigation effect (Layout.tsx lines
561-563): `/assets/` or `/static/` prefixes, or a known file extension
(case-insensitively, mirroring the `/i` regex flag). -/
def isStaticAsset (p : String) : Bool :=
  strStartsWith p "/assets/" || strStartsWith p "/static/" ||
  staticAssetExts.any (fun e => strEndsWith (lowerStr p) ("." ++ e))

/-- The fullscreen-route test of the navigation effect (Layout.tsx line
570). -/
def isFullscreen (p : String) : Bool :=
  p == "/terminal" || p == "/template-editor" ||
  strStartsWith p "/template-editor/"

/-- Model of the route-change navigation effect (Layout.tsx lines
556-655): skip static assets and fullscreen routes; reset a stale
fullscreen `prevPath`; auto-close the previous tab when its menu flags
`closeTab`; record the new `prevPath`; never create tabs for `/login` or
`/`; finally create a tab for the resolved routable menu unless one
already exists or the path is the pending removal (in which case the
marker is consumed). -/
def resetFullscreenPrev (prev : String) : String :=
  if prev == "/terminal" || prev == "/template-editor" ||
      (prev != "" && strStartsWith prev "/template-editor/") then ""
  else prev

/-- The auto-close step of the navigation effect (Layout.tsx lines
583-591): when the previous path's menu flags `closeTab`, close that
tab. -/
def autoClosePrev (menus : MenuList) (prev0 currentPath : String)
    (s : TabsState) : TabsState :=
  if prev0 != "" && prev0 != currentPath then
    match findMenuByPath prev0 menus with
    | some pm => if pm.closeTabFlag then removeTab (tabId prev0) s else s
    | none => s
  else s

/-- The tab-creation step of the navigation effect (Layout.tsx lines
604-654): resolve the current path to a routable menu and create its tab
unless one already exists or the path is the pending removal (in which
case the marker is consumed). -/
def maybeAddTab (menus : MenuList) (currentPath : String) (s2 : TabsState) :
    TabsState :=
  match findMenuByPath currentPath menus with
  | none => s2
  | some menu =>
      if !menu.hasComponent then s2
      else
        if !(s2.tabs.any (fun t => tabId t.path == tabId currentPath)) &&
            !(s2.pending == some (tabId currentPath)) then
          addTab menu s2
        else if s2.pending == some (tabId currentPath) then
          { s2 with pending := none }
        else s2

/-- Model of the route-change navigation effect (Layout.tsx lines
556-655): skip static assets and fullscreen routes; reset a stale
fullscreen `prevPath`; auto-close the previous tab when its menu flags
`closeTab`; record the new `prevPath`; never create tabs for `/login` or
`/`; finally run the tab-creation step. -/
def navEffect (menus : MenuList) (currentPath : String) (s : TabsState) : TabsState :=
  if isStaticAsset currentPath then s
  else if isFullscreen currentPath then s
  else
    let prev0 := resetFullscreenPrev s.prevPath
    let s1 := autoClosePrev menus prev0 currentPath s
    let s2 := { s1 with prevPath := currentPath }
    if currentPath == "/login" || currentPath == "/" then s2
    else if menus.isNil then s2
    else maybeAddTab menus currentPath s2

/-- A trigger of the tab synchronizer: a menu-load reconciliation or a
route-change navigation, each carrying the menu tree (and translator) it
observes. -/
inductive NavEvent where
  | menuLoaded (tr : Translator) (menus : MenuList)
  | navigate (menus : MenuList) (path : String)

def navStep (s : TabsState) (e : NavEvent) : TabsState :=
  match e with
  | .menuLoaded tr menus => menuLoadRecon tr menus s
  | .navigate menus path => navEffect menus path s

def runEvents (evs : List NavEvent) (s : TabsState) : TabsState :=
  evs.foldl navStep s

/-- The tab collection at application start: empty, no pending removal,
no previous path. -/
def initialTabsState : TabsState := ⟨[], none, ""⟩

/-- No two live tabs share a tab id. -/
def idsNodup (s : TabsState) : Prop :=
  (s.tabs.map (fun t => tabId t.path)).Nodup

theorem idsNodup_of_sublist {l l' : List Tab}
    (h : List.Sublist l' l) (hn : (l.map (fun t => tabId t.path)).Nodup) :
    (l'.map (fun t => tabId t.path)).Nodup :=
  (h.map _).nodup hn

theorem tabOfMenu_path (m : MenuType) : (tabOfMenu m).path = m.path := rfl

theorem idsNodup_addTab (m : MenuType) (s : TabsState) (h : idsNodup s) :
    idsNodup (addTab m s) := by
  unfold addTab idsNodup at *
  by_cases hex : s.tabs.any (fun t => tabId t.path == tabId m.path) = true
  · simp only [hex, if_true]
    have heq : (s.tabs.map (fun t =>
        if tabId t.path == tabId m.path then tabOfMenu m else t)).map
          (fun t => tabId t.path) = s.tabs.map (fun t => tabId t.path) := by
      rw [List.map_map]
      apply List.map_congr_left
      intro t _
      simp only [Function.comp_apply]
      by_cases hc : (tabId t.path == tabId m.path) = true
      · rw [if_pos hc, tabOfMenu_path]
        exact (eq_of_beq hc).symm
      · rw [if_neg hc]
    rw [heq]
    exact h
  · simp only [hex, if_false, ite_false, Bool.false_eq_true]
    rw [List.map_append]
    have hnotmem : tabId m.path ∉ s.tabs.map (fun t => tabId t.path) := by
      intro hmem
      obtain ⟨t, ht, hts⟩ := List.mem_map.mp hmem
      apply hex
      rw [List.any_eq_true]
      exact ⟨t, ht, by rw [hts]; exact beq_self_eq_true _⟩
    rw [List.nodup_append]
    refine ⟨h, List.nodup_singleton _, ?_⟩
    intro a ha hb
    simp only [List.map_cons, List.map_nil, List.mem_singleton, tabOfMenu_path] at hb
    rw [hb] at ha
    exact hnotmem ha

theorem idsNodup_removeTab (id : String) (s : TabsState) (h : idsNodup s) :
    idsNodup (removeTab id s) := by
  unfold removeTab
  cases hf : s.tabs.find? (fun t => tabId t.path == id) with
  | none => exact h
  | some t =>
      by_cases hc : t.closable = true
      · simp only [hc, if_true, ite_true]
        exact idsNodup_of_sublist (List.eraseP_sublist _) h
      · simp only [hc, if_false, ite_false]
        exact h

theorem idsNodup_forceRemoveTab (p : String) (s : TabsState) (h : idsNodup s) :
    idsNodup (forceRemoveTab p s) :=
  idsNodup_of_sublist (List.filter_sublist _) h

theorem idsNodup_cleanInvalidTabs (menus : MenuList) (s : TabsState)
    (h : idsNodup s) : idsNodup (cleanInvalidTabs menus s) :=
  idsNodup_of_sublist (List.filter_sublist _) h

theorem updateTabsClosable_ids (menus : MenuList) (s : TabsState) :
    ((updateTabsClosable menus s).tabs.map (fun t => tabId t.path)) =
      s.tabs.map (fun t => tabId t.path) := by
  unfold updateTabsClosable
  rw [List.map_map]
  apply List.map_congr_left
  intro t _
  simp only [Function.comp_apply]
  cases hf : findMenuByPath t.path menus <;> simp [hf]

theorem idsNodup_updateTabsClosable (menus : MenuList) (s : TabsState)
    (h : idsNodup s) : idsNodup (updateTabsClosable menus s) := by
  unfold idsNodup
  rw [updateTabsClosable_ids]
  exact h

theorem idsNodup_scanStep (tr : Translator) (menus : MenuList)
    (acc : TabsState × List (String × Tab) × List (MenuType × String))
    (tab : Tab) (h : idsNodup acc.1) :
    idsNodup (scanStep tr menus acc tab).1 := by
  unfold scanStep
  by_cases hd : (tab.path == "/dashboard") = true
  · simpa [hd] using h
  · simp only [hd, if_false, ite_false, Bool.false_eq_true]
    cases hf : findMenuByPath tab.path menus with
    | none => exact h
    | some menu =>
        simp only
        cases hl : List.lookup tab.path acc.2.1 with
        | some existing =>
            by_cases h1 : (existing.title == getMenuTitle tr menu &&
                tab.title != getMenuTitle tr menu) = true
            · simpa [h1] using idsNodup_removeTab _ _ h
            · by_cases h2 : (tab.title == getMenuTitle tr menu &&
                  existing.title != getMenuTitle tr menu) = true
              · simpa [h1, h2] using idsNodup_removeTab _ _ h
              · simpa [h1, h2] using idsNodup_removeTab _ _ h
        | none =>
            by_cases h3 : (tab.title != getMenuTitle tr menu) = true
            · simpa [h3] using h
            · simpa [h3] using h

theorem idsNodup_scan (tr : Translator) (menus : MenuList) :
    ∀ (rest : List Tab)
      (acc : TabsState × List (String × Tab) × List (MenuType × String)),
      idsNodup acc.1 → idsNodup (rest.foldl (scanStep tr menus) acc).1
  | [], _, h => h
  | tab :: rest, acc, h => by
      rw [List.foldl_cons]
      exact idsNodup_scan tr menus rest _ (idsNodup_scanStep tr menus acc tab h)

theorem idsNodup_batch (upd : List (MenuType × String)) :
    ∀ (st : TabsState), idsNodup st →
      idsNodup (upd.foldl (fun acc p => addTab (menuWithTitle p.1 p.2) acc) st) := by
  induction upd with
  | nil => exact fun st h => h
  | cons p rest ih =>
      intro st h
      rw [List.foldl_cons]
      exact ih _ (idsNodup_addTab _ _ h)

theorem idsNodup_menuLoadScanApply (tr : Translator) (menus : MenuList)
    (s3 : TabsState) (snapshot : List Tab) (h : idsNodup s3) :
    idsNodup (menuLoadScanApply tr menus s3 snapshot) := by
  unfold menuLoadScanApply
  apply idsNodup_batch
  exact idsNodup_scan tr menus snapshot _ h

theorem idsNodup_menuLoadRecon (tr : Translator) (menus : MenuList)
    (s : TabsState) (h : idsNodup s) : idsNodup (menuLoadRecon tr menus s) := by
  unfold menuLoadRecon
  by_cases hnil : menus.isNil = true
  · simpa [hnil] using h
  · simp only [hnil, if_false, ite_false, Bool.false_eq_true]
    by_cases hemp : s.tabs.isEmpty = true
    · simpa [hemp] using
        idsNodup_cleanInvalidTabs menus _ (idsNodup_forceRemoveTab _ _ h)
    · simp only [hemp, if_false, ite_false, Bool.false_eq_true]
      exact idsNodup_menuLoadScanApply tr menus _ _
        (idsNodup_updateTabsClosable menus _
          (idsNodup_cleanInvalidTabs menus _ (idsNodup_forceRemoveTab _ _ h)))

theorem idsNodup_autoClosePrev (menus : MenuList) (prev0 p : String)
    (s : TabsState) (h : idsNodup s) : idsNodup (autoClosePrev menus prev0 p s) := by
  unfold autoClosePrev
  by_cases hc : (prev0 != "" && prev0 != p) = true
  · rw [if_pos hc]
    cases findMenuByPath prev0 menus with
    | none => exact h
    | some pm =>
        by_cases hct : pm.closeTabFlag = true
        · simp only [hct, if_true, ite_true]
          exact idsNodup_removeTab _ _ h
        · simp only [hct, if_false, ite_false, Bool.false_eq_true]
          exact h
  · rw [if_neg hc]
    exact h

theorem idsNodup_setPrevPath (s : TabsState) (p : String) (h : idsNodup s) :
    idsNodup ({ s with prevPath := p } : TabsState) := h

theorem idsNodup_setPendingNone (s : TabsState) (h : idsNodup s) :
    idsNodup ({ s with pending := none } : TabsState) := h

theorem idsNodup_maybeAddTab (menus : MenuList) (p : String) (s2 : TabsState)
    (h : idsNodup s2) : idsNodup (maybeAddTab menus p s2) := by
  unfold maybeAddTab
  cases findMenuByPath p menus with
  | none => exact h
  | some menu =>
      by_cases hcomp : (!menu.hasComponent) = true
      · simp only [hcomp, if_true, ite_true]
        exact h
      · simp only [hcomp, if_false, ite_false, Bool.false_eq_true]
        by_cases hadd : (!(s2.tabs.any (fun t => tabId t.path == tabId p)) &&
            !(s2.pending == some (tabId p))) = true
        · rw [if_pos hadd]
          exact idsNodup_addTab _ _ h
        · rw [if_neg hadd]
          by_cases hpend : (s2.pending == some (tabId p)) = true
          · rw [if_pos hpend]
            exact idsNodup_setPendingNone _ h
          · rw [if_neg hpend]
            exact h

theorem idsNodup_navEffect (menus : MenuList) (p : String) (s : TabsState)
    (h : idsNodup s) : idsNodup (navEffect menus p s) := by
  unfold navEffect
  by_cases ha : isStaticAsset p = true
  · rw [if_pos ha]; exact h
  · rw [if_neg ha]
    by_cases hfs : isFullscreen p = true
    · rw [if_pos hfs]; exact h
    · rw [if_neg hfs]
      have h2 : idsNodup ({ autoClosePrev menus (resetFullscreenPrev s.prevPath) p s
          with prevPath := p } : TabsState) :=
        idsNodup_setPrevPath _ _ (idsNodup_autoClosePrev _ _ _ _ h)
      by_cases hlg : (p == "/login" || p == "/") = true
      · rw [if_pos hlg]; exact h2
      · rw [if_neg hlg]
        by_cases hnil : menus.isNil = true
        · rw [if_pos hnil]; exact h2
        · rw [if_neg hnil]
          exact idsNodup_maybeAddTab _ _ _ h2

theorem idsNodup_runEvents (evs : List NavEvent) :
    ∀ (s : TabsState), idsNodup s → idsNodup (runEvents evs s) := by
  induction evs with
  | nil => exact fun s h => h
  | cons e rest ih =>
      intro s h
      rw [runEvents, List.foldl_cons]
      apply ih
      cases e with
      | menuLoaded tr menus => exact idsNodup_menuLoadRecon tr menus s h
      | navigate menus p => exact idsNodup_navEffect menus p s h

/-- C1: over every sequence of menu-load reconciliations and route-change
navigations starting from the empty collection, the tab collection never
contains two tabs with the same path: the navigation handler creates a tab
only when no tab with its id exists, and every other operation only
removes or updates tabs in place. -/
theorem c1_no_duplicate_paths (evs : List NavEvent) :
    ((runEvents evs initialTabsState).tabs.map (fun t => t.path)).Nodup := by
  have hids : idsNodup (runEvents evs initialTabsState) :=
    idsNodup_runEvents evs initialTabsState (by simp [initialTabsState, idsNodup])
  unfold idsNodup at hids
  have : ((runEvents evs initialTabsState).tabs.map (fun t => t.path)).map tabId =
      (runEvents evs initialTabsState).tabs.map (fun t => tabId t.path) := by
    rw [List.map_map]; rfl
  exact List.Nodup.of_map tabId (by rw [this]; exact hids)

/-- The batched title corrections the scan collects from a duplicate-free
snapshot: one entry per resolvable non-dashboard tab whose stored title
diverges from the freshly resolved one. -/
def collectUpd (tr : Translator) (menus : MenuList) (tabs : List Tab) :
    List (MenuType × String) :=
  tabs.filterMap (fun tab =>
    if tab.path == "/dashboard" then none
    else
      match findMenuByPath tab.path menus with
      | none => none
      | some menu =>
          if tab.title != getMenuTitle tr menu then
            some (menu, getMenuTitle tr menu)
          else none)

theorem scan_clean (tr : Translator) (menus : MenuList) :
    ∀ (rest : List Tab) (st : TabsState) (seen : List (String × Tab))
      (upd : List (MenuType × String)),
      (rest.map (fun t => t.path)).Nodup →
      (∀ k, k ∈ rest.map (fun t => t.path) → List.lookup k seen = none) →
      ∃ seen', rest.foldl (scanStep tr menus) (st, seen, upd) =
        (st, seen', upd ++ collectUpd tr menus rest)
  | [], st, seen, upd, _, _ => ⟨seen, by simp [collectUpd]⟩
  | tab :: rest, st, seen, upd, hnd, hseen => by
      rw [List.foldl_cons]
      have hnd' : (rest.map (fun t => t.path)).Nodup := by
        simpa using hnd.sublist ((List.sublist_cons_self tab rest).map _)
      have hhead : tab.path ∉ rest.map (fun t => t.path) := by
        have := hnd
        rw [List.map_cons, List.nodup_cons] at this
        exact this.1
      by_cases hd : (tab.path == "/dashboard") = true
      · have hstep : scanStep tr menus (st, seen, upd) tab = (st, seen, upd) := by
          simp [scanStep, hd]
        rw [hstep]
        obtain ⟨seen', hrec⟩ := scan_clean tr menus rest st seen upd hnd'
          (fun k hk => hseen k (List.mem_cons_of_mem _ hk))
        refine ⟨seen', ?_⟩
        rw [hrec]
        have hd' : tab.path = "/dashboard" := eq_of_beq hd
        have : collectUpd tr menus (tab :: rest) = collectUpd tr menus rest := by
          simp [collectUpd, List.filterMap_cons, hd']
        rw [this]
      · cases hf : findMenuByPath tab.path menus with
        | none =>
            have hstep : scanStep tr menus (st, seen, upd) tab = (st, seen, upd) := by
              simp [scanStep, hd, hf]
            rw [hstep]
            obtain ⟨seen', hrec⟩ := scan_clean tr menus rest st seen upd hnd'
              (fun k hk => hseen k (List.mem_cons_of_mem _ hk))
            refine ⟨seen', ?_⟩
            rw [hrec]
            have hd' : ¬ tab.path = "/dashboard" := by
              simpa using hd
            have : collectUpd tr menus (tab :: rest) = collectUpd tr menus rest := by
              simp [collectUpd, List.filterMap_cons, hd', hf]
            rw [this]
        | some menu =>
            have hlook : List.lookup tab.path seen = none :=
              hseen tab.path (by simp)
            have hseen' : ∀ k, k ∈ rest.map (fun t => t.path) →
                List.lookup k ((tab.path, tab) :: seen) = none := by
              intro k hk
              have hne : k ≠ tab.path := fun he => hhead (he ▸ hk)
              have hb : (k == tab.path) = false := beq_eq_false_iff_ne.mpr hne
              simp only [List.lookup, hb]
              exact hseen k (List.mem_cons_of_mem _ hk)
            by_cases ht : (tab.title != getMenuTitle tr menu) = true
            · have hstep : scanStep tr menus (st, seen, upd) tab =
                  (st, (tab.path, tab) :: seen,
                    upd ++ [(menu, getMenuTitle tr menu)]) := by
                simp [scanStep, hd, hf, hlook, ht]
              rw [hstep]
              obtain ⟨seen', hrec⟩ := scan_clean tr menus rest st
                ((tab.path, tab) :: seen) (upd ++ [(menu, getMenuTitle tr menu)])
                hnd' hseen'
              refine ⟨seen', ?_⟩
              rw [hrec]
              have hd' : ¬ tab.path = "/dashboard" := by
                simpa using hd
              have ht' : ¬ tab.title = getMenuTitle tr menu := by
                simpa using ht
              have hcol : collectUpd tr menus (tab :: rest) =
                  (menu, getMenuTitle tr menu) :: collectUpd tr menus rest := by
                simp [collectUpd, List.filterMap_cons, hd', hf, ht']
              rw [hcol, List.append_assoc]
              rfl
            · have hstep : scanStep tr menus (st, seen, upd) tab =
                  (st, (tab.path, tab) :: seen, upd) := by
                simp [scanStep, hd, hf, hlook, ht]
              rw [hstep]
              obtain ⟨seen', hrec⟩ := scan_clean tr menus rest st
                ((tab.path, tab) :: seen) upd hnd' hseen'
              refine ⟨seen', ?_⟩
              rw [hrec]
              have hd' : ¬ tab.path = "/dashboard" := by
                simpa using hd
              have ht' : tab.title = getMenuTitle tr menu := by
                simpa using ht
              have hcol : collectUpd tr menus (tab :: rest) =
                  collectUpd tr menus rest := by
                simp [collectUpd, List.filterMap_cons, hd', hf, ht']
              rw [hcol]

mutual
theorem findMenuByPath_path : ∀ (ms : MenuList) {p : String} {m : MenuType},
    findMenuByPath p ms = some m → m.path = p
  | .nil, _, _, h => by simp [findMenuByPath] at h
  | .cons m0 ms, p, m, h => by
      rw [findMenuByPath] at h
      cases hn : findMenuInNode p m0 with
      | some r =>
          rw [hn] at h
          cases h
          exact findMenuInNode_path m0 hn
      | none =>
          rw [hn] at h
          exact findMenuByPath_path ms h
theorem findMenuInNode_path : ∀ (node : MenuType) {p : String} {m : MenuType},
    findMenuInNode p node = some m → m.path = p
  | .mk i n p0 c h0 mt ch, p, m, h => by
      rw [findMenuInNode] at h
      by_cases he : (p0 == p) = true
      · rw [if_pos he] at h
        cases h
        exact eq_of_beq he
      · rw [if_neg he] at h
        exact findMenuByPath_path ch h
end

theorem tabOfMenu_menuWithTitle (m : MenuType) (c : String) :
    tabOfMenu (menuWithTitle m c) = ⟨m.path, c, m.derivedClosable⟩ := by
  cases m with
  | mk i n p comp h mt ch =>
      simp [tabOfMenu, menuWithTitle, metaWithTitle, MenuType.derivedClosable,
        MenuType.meta, MenuType.path]

/-- A tab is structurally clean for a menu tree when it is not the retired
`/dashboard` tab, its path resolves, and its closable flag is the derived
one. -/
def halfClean (menus : MenuList) (t : Tab) : Prop :=
  (t.path == "/dashboard") = false ∧
  ∃ m, findMenuByPath t.path menus = some m ∧ t.closable = m.derivedClosable

/-- A tab's stored title agrees with the freshly resolved title. -/
def tabTitleOk (tr : Translator) (menus : MenuList) (t : Tab) : Prop :=
  ∃ m, findMenuByPath t.path menus = some m ∧ t.title = getMenuTitle tr m

/-- A well-formed batched correction entry: self-consistent with the tree
and not about the retired path. -/
def goodEntry (tr : Translator) (menus : MenuList) (e : MenuType × String) : Prop :=
  findMenuByPath e.1.path menus = some e.1 ∧ e.2 = getMenuTitle tr e.1 ∧
  (e.1.path == "/dashboard") = false

theorem batch_clean (tr : Translator) (menus : MenuList) :
    ∀ (upd : List (MenuType × String)) (st : TabsState),
      idsNodup st →
      (∀ e ∈ upd, goodEntry tr menus e) →
      (∀ t ∈ st.tabs, halfClean menus t ∧
        (tabTitleOk tr menus t ∨ ∃ m, findMenuByPath t.path menus = some m ∧
          (m, getMenuTitle tr m) ∈ upd)) →
      ∀ t' ∈ (upd.foldl (fun acc p => addTab (menuWithTitle p.1 p.2) acc) st).tabs,
        halfClean menus t' ∧ tabTitleOk tr menus t'
  | [], st, _, _, htabs => by
      intro t' ht'
      obtain ⟨hh, hd⟩ := htabs t' ht'
      refine ⟨hh, ?_⟩
      rcases hd with hok | ⟨m, _, hmem⟩
      · exact hok
      · exact absurd hmem (List.not_mem_nil _)
  | (m, c) :: rest, st, hnd, hgood, htabs => by
      rw [List.foldl_cons]
      have hgoodm : goodEntry tr menus (m, c) := hgood _ (by simp)
      have hnormClean : halfClean menus (⟨m.path, c, m.derivedClosable⟩ : Tab) ∧
          tabTitleOk tr menus (⟨m.path, c, m.derivedClosable⟩ : Tab) := by
        refine ⟨⟨hgoodm.2.2, m, hgoodm.1, rfl⟩, m, hgoodm.1, hgoodm.2.1⟩
      apply batch_clean tr menus rest _
        (idsNodup_addTab _ _ hnd)
        (fun e he => hgood e (List.mem_cons_of_mem _ he))
      intro t ht
      unfold addTab at ht
      by_cases hex : st.tabs.any (fun t0 =>
          tabId t0.path == tabId (menuWithTitle m c).path) = true
      · rw [if_pos hex] at ht
        simp only [List.mem_map] at ht
        obtain ⟨t0, ht0, hmap⟩ := ht
        by_cases hc : (tabId t0.path == tabId (menuWithTitle m c).path) = true
        · rw [if_pos hc] at hmap
          rw [tabOfMenu_menuWithTitle] at hmap
          rw [← hmap]
          exact ⟨hnormClean.1, Or.inl hnormClean.2⟩
        · rw [if_neg hc] at hmap
          subst hmap
          obtain ⟨hh, hd⟩ := htabs t0 ht0
          refine ⟨hh, ?_⟩
          rcases hd with hok | ⟨m', hm', hmem⟩
          · exact Or.inl hok
          · rcases List.mem_cons.mp hmem with hhd | htl
            · exfalso
              apply hc
              have h1 : m' = m := by
                have := congrArg Prod.fst hhd
                simpa using this
              have h2 : m'.path = t0.path := findMenuByPath_path menus hm'
              have h3 : (menuWithTitle m c).path = m.path := by
                cases m with
                | mk i n p comp hh0 mt ch => rfl
              rw [h3, ← h1, h2]
              exact beq_self_eq_true _
            · exact Or.inr ⟨m', hm', htl⟩
      · rw [if_neg hex] at ht
        simp only [List.mem_append, List.mem_singleton] at ht
        rcases ht with hin | hnew
        · obtain ⟨hh, hd⟩ := htabs t hin
          refine ⟨hh, ?_⟩
          rcases hd with hok | ⟨m', hm', hmem⟩
          · exact Or.inl hok
          · rcases List.mem_cons.mp hmem with hhd | htl
            · exfalso
              apply hex
              rw [List.any_eq_true]
              refine ⟨t, hin, ?_⟩
              have h1 : m' = m := by
                have := congrArg Prod.fst hhd
                simpa using this
              have h2 : m'.path = t.path := findMenuByPath_path menus hm'
              have h3 : (menuWithTitle m c).path = m.path := by
                cases m with
                | mk i n p comp hh0 mt ch => rfl
              rw [h3, ← h1, h2]
              exact beq_self_eq_true _
            · exact Or.inr ⟨m', hm', htl⟩
        · rw [hnew, tabOfMenu_menuWithTitle]
          exact ⟨hnormClean.1, Or.inl hnormClean.2⟩

theorem pathsNodup_of_idsNodup (s : TabsState) (h : idsNodup s) :
    (s.tabs.map (fun t => t.path)).Nodup := by
  unfold idsNodup at h
  have heq : (s.tabs.map (fun t => t.path)).map tabId =
      s.tabs.map (fun t => tabId t.path) := by
    rw [List.map_map]; rfl
  exact List.Nodup.of_map tabId (by rw [heq]; exact h)

theorem menuLoadScanApply_eq (tr : Translator) (menus : MenuList)
    (s3 : TabsState) (snapshot : List Tab)
    (hnd : (snapshot.map (fun t => t.path)).Nodup) :
    menuLoadScanApply tr menus s3 snapshot =
      (collectUpd tr menus snapshot).foldl
        (fun acc p => addTab (menuWithTitle p.1 p.2) acc) s3 := by
  obtain ⟨seen', hfold⟩ :=
    scan_clean tr menus snapshot s3 [] [] hnd (fun _ _ => rfl)
  unfold menuLoadScanApply
  rw [hfold]
  simp

theorem collectUpd_good (tr : Translator) (menus : MenuList) (tabs : List Tab) :
    ∀ e ∈ collectUpd tr menus tabs, goodEntry tr menus e := by
  intro e he
  unfold collectUpd at he
  rw [List.mem_filterMap] at he
  obtain ⟨tab, htab, hfe⟩ := he
  by_cases hd : (tab.path == "/dashboard") = true
  · rw [if_pos hd] at hfe
    simp at hfe
  · rw [if_neg hd] at hfe
    cases hf : findMenuByPath tab.path menus with
    | none => rw [hf] at hfe; simp at hfe
    | some menu =>
        rw [hf] at hfe
        by_cases ht : (tab.title != getMenuTitle tr menu) = true
        · have he' : e = (menu, getMenuTitle tr menu) := by
            simp [ht] at hfe
            exact hfe.symm
          subst he'
          have hpath : menu.path = tab.path := findMenuByPath_path menus hf
          refine ⟨?_, rfl, ?_⟩
          · show findMenuByPath menu.path menus = some menu
            rw [hpath]; exact hf
          · show (menu.path == "/dashboard") = false
            rw [hpath]
            exact Bool.eq_false_iff.mpr hd
        · simp [ht] at hfe

theorem s3_tabs_spec (tr : Translator) (menus : MenuList) (s : TabsState) :
    ∀ t ∈ (updateTabsClosable menus
        (cleanInvalidTabs menus (forceRemoveTab "/dashboard" s))).tabs,
      halfClean menus t ∧
      (tabTitleOk tr menus t ∨ ∃ m, findMenuByPath t.path menus = some m ∧
        (m, getMenuTitle tr m) ∈ collectUpd tr menus s.tabs) := by
  intro t ht
  unfold updateTabsClosable at ht
  rw [List.mem_map] at ht
  obtain ⟨t0, ht0, hf0⟩ := ht
  unfold cleanInvalidTabs at ht0
  obtain ⟨ht1, hq⟩ := List.mem_filter.mp ht0
  unfold forceRemoveTab at ht1
  obtain ⟨hmem, hp⟩ := List.mem_filter.mp ht1
  have hdash : (t0.path == "/dashboard") = false := by
    cases hb : (t0.path == "/dashboard") with
    | false => rfl
    | true => rw [hb] at hp; simp at hp
  obtain ⟨m, hfind⟩ := Option.isSome_iff_exists.mp hq
  rw [hfind] at hf0
  have htp : t.path = t0.path := by rw [← hf0]
  have htcl : t.closable = m.derivedClosable := by rw [← hf0]
  have httl : t.title = t0.title := by rw [← hf0]
  have hfindt : findMenuByPath t.path menus = some m := by rw [htp]; exact hfind
  refine ⟨⟨by rw [htp]; exact hdash, m, hfindt, htcl⟩, ?_⟩
  by_cases htt : t0.title = getMenuTitle tr m
  · exact Or.inl ⟨m, hfindt, by rw [httl]; exact htt⟩
  · refine Or.inr ⟨m, hfindt, ?_⟩
    unfold collectUpd
    rw [List.mem_filterMap]
    refine ⟨t0, hmem, ?_⟩
    simp [hdash, hfind, htt]

/-- Every tab produced by one menu-load reconciliation is clean: not the
retired path, resolvable, correctly retitled and with the derived closable
flag. -/
theorem menuLoadRecon_clean (tr : Translator) (menus : MenuList) (s : TabsState)
    (hnil : menus.isNil = false) (h : idsNodup s) :
    ∀ t' ∈ (menuLoadRecon tr menus s).tabs,
      halfClean menus t' ∧ tabTitleOk tr menus t' := by
  unfold menuLoadRecon
  rw [if_neg (by simp [hnil])]
  by_cases hemp : s.tabs.isEmpty = true
  · rw [if_pos hemp]
    intro t' ht'
    exfalso
    have hsnil : s.tabs = [] := List.isEmpty_iff.mp hemp
    unfold cleanInvalidTabs forceRemoveTab at ht'
    simp [hsnil] at ht'
  · rw [if_neg hemp]
    rw [menuLoadScanApply_eq tr menus _ _ (pathsNodup_of_idsNodup s h)]
    exact batch_clean tr menus (collectUpd tr menus s.tabs) _
      (idsNodup_updateTabsClosable menus _
        (idsNodup_cleanInvalidTabs menus _ (idsNodup_forceRemoveTab _ _ h)))
      (collectUpd_good tr menus s.tabs)
      (s3_tabs_spec tr menus s)

theorem forceRemoveTab_fix (menus : MenuList) (s' : TabsState)
    (hclean : ∀ t ∈ s'.tabs, halfClean menus t) :
    forceRemoveTab "/dashboard" s' = s' := by
  unfold forceRemoveTab
  have : s'.tabs.filter (fun t => !(t.path == "/dashboard")) = s'.tabs :=
    List.filter_eq_self.mpr (fun t ht => by
      have := (hclean t ht).1
      simp [this])
  rw [this]

theorem cleanInvalidTabs_fix (menus : MenuList) (s' : TabsState)
    (hclean : ∀ t ∈ s'.tabs, halfClean menus t) :
    cleanInvalidTabs menus s' = s' := by
  unfold cleanInvalidTabs
  have : s'.tabs.filter (fun t => (findMenuByPath t.path menus).isSome) = s'.tabs :=
    List.filter_eq_self.mpr (fun t ht => by
      obtain ⟨_, m, hm, _⟩ := hclean t ht
      simp [hm])
  rw [this]

theorem updateTabsClosable_fix (menus : MenuList) (s' : TabsState)
    (hclean : ∀ t ∈ s'.tabs, halfClean menus t) :
    updateTabsClosable menus s' = s' := by
  unfold updateTabsClosable
  have : s'.tabs.map (fun t =>
      match findMenuByPath t.path menus with
      | some m => { t with closable := m.derivedClosable }
      | none => t) = s'.tabs := by
    have hpt : ∀ t ∈ s'.tabs, (fun t =>
        match findMenuByPath t.path menus with
        | some m => ({ t with closable := m.derivedClosable } : Tab)
        | none => t) t = id t := by
      intro t ht
      obtain ⟨_, m, hm, hcl⟩ := hclean t ht
      simp only [hm, id]
      cases t with
      | mk p ti cl => simp at hcl; simp [hcl]
    rw [List.map_congr_left hpt, List.map_id]
  rw [this]

theorem collectUpd_nil_of_clean (tr : Translator) (menus : MenuList)
    (tabs : List Tab)
    (hclean : ∀ t ∈ tabs, halfClean menus t ∧ tabTitleOk tr menus t) :
    collectUpd tr menus tabs = [] := by
  unfold collectUpd
  rw [List.filterMap_eq_nil_iff]
  intro tab htab
  obtain ⟨⟨hdash, m, hm, _⟩, m', hm', httl⟩ := hclean tab htab
  have hmm : m' = m := by
    rw [hm] at hm'
    exact (Option.some.inj hm').symm
  subst hmm
  simp [hdash, hm, httl]

/-- A clean state is a fixpoint of the menu-load reconciliation. -/
theorem menuLoadRecon_fix (tr : Translator) (menus : MenuList) (s' : TabsState)
    (hnil : menus.isNil = false)
    (hclean : ∀ t ∈ s'.tabs, halfClean menus t ∧ tabTitleOk tr menus t)
    (hnd : idsNodup s') :
    menuLoadRecon tr menus s' = s' := by
  have hhalf : ∀ t ∈ s'.tabs, halfClean menus t := fun t ht => (hclean t ht).1
  unfold menuLoadRecon
  rw [if_neg (by simp [hnil])]
  rw [forceRemoveTab_fix menus s' hhalf, cleanInvalidTabs_fix menus s' hhalf]
  by_cases hemp : s'.tabs.isEmpty = true
  · rw [if_pos hemp]
  · rw [if_neg hemp]
    rw [updateTabsClosable_fix menus s' hhalf]
    rw [menuLoadScanApply_eq tr menus s' s'.tabs (pathsNodup_of_idsNodup s' hnd)]
    rw [collectUpd_nil_of_clean tr menus s'.tabs hclean]
    rfl

/-- C5 counterexample: the menu-load reconciliation is not idempotent on
every tab-collection state.  From the duplicate state `[⟨/reports,
"reports"⟩, ⟨/reports, "WRONG"⟩]` the dedup branch issues
`removeTab(tab.id)` for the wrongly-titled duplicate, but both duplicates
share the id `/reports`, so the id-keyed removal drops the first
(correctly titled) tab; the second run then still has a title to fix. -/
theorem c5_counterexample :
    menuLoadRecon (fun _ => "")
        (.cons (.mk "mR" "reports" "/reports" (some "Reports") false
          (some ⟨none, none, false, some true⟩) .nil) .nil)
        (menuLoadRecon (fun _ => "")
          (.cons (.mk "mR" "reports" "/reports" (some "Reports") false
            (some ⟨none, none, false, some true⟩) .nil) .nil)
          ⟨[⟨"/reports", "reports", true⟩, ⟨"/reports", "WRONG", true⟩], none, ""⟩) ≠
      menuLoadRecon (fun _ => "")
        (.cons (.mk "mR" "reports" "/reports" (some "Reports") false
          (some ⟨none, none, false, some true⟩) .nil) .nil)
        ⟨[⟨"/reports", "reports", true⟩, ⟨"/reports", "WRONG", true⟩], none, ""⟩ := by
  decide

/-- C5 (amended): the menu-load reconciliation is idempotent on every
state in which no two tabs share a tab id (the invariant the collection
maintains, see C1): running `onMenuTreeLoaded` a second time with the same
tree produces no further change. -/
theorem c5_recon_idempotent (tr : Translator) (menus : MenuList) (s : TabsState)
    (h : idsNodup s) :
    menuLoadRecon tr menus (menuLoadRecon tr menus s) = menuLoadRecon tr menus s := by
  by_cases hnil : menus.isNil = true
  · simp [menuLoadRecon, hnil]
  · have hnil' : menus.isNil = false := Bool.eq_false_iff.mpr hnil
    exact menuLoadRecon_fix tr menus _ hnil'
      (menuLoadRecon_clean tr menus s hnil' h)
      (idsNodup_menuLoadRecon tr menus s h)

/-- Witness for the amended C5 theorem at a concrete duplicate-free
state. -/
theorem c5_recon_idempotent_witness :
    menuLoadRecon (fun _ => "")
        (.cons (.mk "mR" "reports" "/reports" (some "Reports") false
          (some ⟨none, none, false, some true⟩) .nil) .nil)
        (menuLoadRecon (fun _ => "")
          (.cons (.mk "mR" "reports" "/reports" (some "Reports") false
            (some ⟨none, none, false, some true⟩) .nil) .nil)
          ⟨[⟨"/reports", "stale", true⟩], none, ""⟩) =
      menuLoadRecon (fun _ => "")
        (.cons (.mk "mR" "reports" "/reports" (some "Reports") false
          (some ⟨none, none, false, some true⟩) .nil) .nil)
        ⟨[⟨"/reports", "stale", true⟩], none, ""⟩ :=
  c5_recon_idempotent (fun _ => "")
    (.cons (.mk "mR" "reports" "/reports" (some "Reports") false
      (some ⟨none, none, false, some true⟩) .nil) .nil)
    ⟨[⟨"/reports", "stale", true⟩], none, ""⟩ (by unfold idsNodup; decide)

/-- C2 counterexample: with identical `menuPath = "/all-tickets"` and
`currentPath = "/ticket/55"`, `isPathActive` answers differently depending
on the stored `sessionStorage` hint, so it is not a pure function of the
path arguments alone. -/
theorem c2_counterexample :
    isPathActive "/all-tickets" "/ticket/55" ⟨none, "", none⟩ = false ∧
    isPathActive "/all-tickets" "/ticket/55" ⟨none, "", some "/all-tickets"⟩ = true :=
  ⟨rfl, rfl⟩

/-- C2 (amended): `isPathActive` consults the ambient hints (navigation
state, referrer, stored hint) only in the `/ticket/` branch; for every
`currentPath` that does not begin with `/ticket/`, the result is a pure
function of `menuPath` and `currentPath` alone. -/
theorem c2_env_independent_outside_ticket (m c : String) (e₁ e₂ : ActiveEnv)
    (h : strStartsWith c "/ticket/" = false) :
    isPathActive m c e₁ = isPathActive m c e₂ := by
  unfold isPathActive
  simp [h]

/-- Witness for the amended C2 theorem at a concrete non-ticket route. -/
theorem c2_env_independent_outside_ticket_witness :
    isPathActive "/services" "/services/42" ⟨none, "", none⟩ =
      isPathActive "/services" "/services/42" ⟨some "/all-tickets", "r", some "/x"⟩ :=
  c2_env_independent_outside_ticket _ _ _ _ (by decide)

/-- C7 counterexample: the daily-workorders alias fires for
`/fill-ticket-form/step-2`, a path different from the aliased
`/fill-ticket-form`, so the alias is a prefix rule and not a literal
equivalence. -/
theorem c7_counterexample :
    isPathActive "/daily-workorders" "/fill-ticket-form/step-2" emptyEnv = true ∧
    ("/fill-ticket-form/step-2" : String) ≠ "/fill-ticket-form" :=
  ⟨rfl, by decide⟩

/-- C7 (amended): the legacy alias in `isPathActive` is a prefix rule:
`/daily-workorders` is active for every `currentPath` that starts with
`/fill-ticket-form`, whatever the ambient hints. -/
theorem c7_alias_rule (c : String) (env : ActiveEnv)
    (h : strStartsWith c "/fill-ticket-form" = true) :
    isPathActive "/daily-workorders" c env = true := by
  unfold isPathActive
  by_cases h1 : (("/daily-workorders" : String) == c) = true
  · simp [h1]
  · simp [h1, h]

/-- Witness for the amended C7 theorem at a concrete prefixed route. -/
theorem c7_alias_rule_witness :
    isPathActive "/daily-workorders" "/fill-ticket-form/extra" emptyEnv = true :=
  c7_alias_rule _ emptyEnv (by decide)

/-- C8 counterexample: besides `/my-tickets`, the menu path `/ticket/55`
itself is also active for `currentPath = "/ticket/55"` (exact-match rule),
so it is not the case that every menu path other than `/my-tickets` is
inactive. -/
theorem c8_counterexample :
    isPathActive "/ticket/55" "/ticket/55" emptyEnv = true ∧
    ("/ticket/55" : String) ≠ "/my-tickets" :=
  ⟨rfl, by decide⟩

/-- C8 (amended): for `currentPath = "/ticket/55"` with no hints, a menu
path is active exactly when it is `/my-tickets` (the hard-coded default of
the ticket branch) or the literal `/ticket/55` (exact-match rule). -/
theorem c8_ticket_default_active (m : String) :
    isPathActive m "/ticket/55" emptyEnv = true ↔
      (m = "/my-tickets" ∨ m = "/ticket/55") := by
  constructor
  · intro h
    unfold isPathActive at h
    by_cases h1 : ((m == "/ticket/55") = true)
    · exact Or.inr (eq_of_beq h1)
    · have d2 : strStartsWith "/ticket/55" "/fill-ticket-form" = false := by decide
      have d3 : strStartsWith "/ticket/55" "/services/" = false := by decide
      have d4 : strStartsWith "/ticket/55" "/clusters/" = false := by decide
      have d6 : strStartsWith "/ticket/55" "/k8s/deployments/" = false := by decide
      have d8 : strStartsWith "/ticket/55" "/ticket/" = true := by decide
      by_cases h7 : strStartsWith m "/k8s/" = true
      · by_cases h7b : strStartsWith "/ticket/55" (m ++ "/") = true
        · exact (k8s_rule_dead_for_ticket m h7 h7b).elim
        · simp [h1, d2, d3, d4, d6, d8, h7, h7b, ticketActive, emptyEnv] at h
          exact Or.inl h
      · simp [h1, d2, d3, d4, d6, d8, h7, ticketActive, emptyEnv] at h
        exact Or.inl h
  · rintro (rfl | rfl) <;> rfl

/-- Witness for the amended C8 theorem: the default `/my-tickets` is active
for the hint-less ticket-detail route. -/
theorem c8_ticket_default_active_witness :
    isPathActive "/my-tickets" "/ticket/55" emptyEnv = true :=
  (c8_ticket_default_active "/my-tickets").mpr (Or.inl rfl)

end Layout
